import Mathlib

/-!
Verification of the NeMo audio-based text-normalization core against its
specification.  The development shallow-embeds the three source files:

* `nemo_text_processing/text_normalization/taggers/measure.py`
* `nemo_text_processing/text_normalization/verbalizers/money.py`
* `nemo_text_processing/text_normalization/normalize_with_audio.py`

The pynini weighted-transducer combinators are embedded as an inductive
syntax `Fst` together with a weighted acceptance relation `Accepts`:
`Accepts env e i o w` holds when the transducer expression `e` has an
accepting path consuming input `i`, emitting output `o`, with cumulative
tropical weight `w`.  Sub-automata that are built outside the three source
files (the cardinal/decimal grammars and the lexicon files) enter as
abstract atoms interpreted by an environment `env`.
-/

/-- Weighted-transducer syntax: the pynini combinators used by the source.
`idOn p` is an identity acceptor restricted to strings satisfying `p`
(used for `NEMO_SIGMA - "1"`), `keepClass` is a one-character identity
transducer over a character class (`NEMO_ALPHA`, `NEMO_NOT_QUOTE`),
`delClass` deletes one character of a class (used under `closure` for
`delete_space`), `cross a b` is `pynini.cross` (and `pynutil.insert` /
`pynutil.delete` as the special cases with empty input / output),
`seq`/`alt`/`star` are concatenation, union and closure, `wt` is
`pynutil.add_weight`, `comp` is `@`-composition, and `atom n` is an
abstract sub-automaton interpreted by the environment. -/
inductive Fst where
  | idOn (p : List Char → Bool)
  | keepClass (p : Char → Bool)
  | delClass (p : Char → Bool)
  | cross (a b : List Char)
  | seq (e₁ e₂ : Fst)
  | alt (e₁ e₂ : Fst)
  | star (e : Fst)
  | wt (w : ℚ) (e : Fst)
  | comp (e₁ e₂ : Fst)
  | atom (n : Nat)

/-- Interpretation of the abstract atoms: atom number ↦ weighted relation. -/
def FstEnv : Type := Nat → List Char → List Char → ℚ → Prop

/-- Weighted acceptance: `Accepts env e i o w` holds when `e` relates input
`i` to output `o` along a path of cumulative weight `w` (tropical weights
add along paths; composition adds the weights of the two stages). -/
inductive Accepts (env : FstEnv) : Fst → List Char → List Char → ℚ → Prop where
  | idOn {p s} (h : p s = true) : Accepts env (.idOn p) s s 0
  | keepClass {p c} (h : p c = true) : Accepts env (.keepClass p) [c] [c] 0
  | delClass {p c} (h : p c = true) : Accepts env (.delClass p) [c] [] 0
  | cross (a b : List Char) : Accepts env (.cross a b) a b 0
  | seq {e₁ e₂ i₁ o₁ w₁ i₂ o₂ w₂} (h₁ : Accepts env e₁ i₁ o₁ w₁)
      (h₂ : Accepts env e₂ i₂ o₂ w₂) :
      Accepts env (.seq e₁ e₂) (i₁ ++ i₂) (o₁ ++ o₂) (w₁ + w₂)
  | altL {e₁ e₂ i o w} (h : Accepts env e₁ i o w) : Accepts env (.alt e₁ e₂) i o w
  | altR {e₁ e₂ i o w} (h : Accepts env e₂ i o w) : Accepts env (.alt e₁ e₂) i o w
  | starNil {e} : Accepts env (.star e) [] [] 0
  | starCons {e i₁ o₁ w₁ i₂ o₂ w₂} (h₁ : Accepts env e i₁ o₁ w₁)
      (h₂ : Accepts env (.star e) i₂ o₂ w₂) :
      Accepts env (.star e) (i₁ ++ i₂) (o₁ ++ o₂) (w₁ + w₂)
  | wt {v e i o w} (h : Accepts env e i o w) : Accepts env (.wt v e) i o (v + w)
  | comp {e₁ e₂ i m o w₁ w₂} (h₁ : Accepts env e₁ i m w₁)
      (h₂ : Accepts env e₂ m o w₂) : Accepts env (.comp e₁ e₂) i o (w₁ + w₂)
  | atom {n i o w} (h : env n i o w) : Accepts env (.atom n) i o w

/-- `pynini.closure(e, 0, 1)`: optional block. -/
def Fst.opt (e : Fst) : Fst := .alt e (.cross [] [])

/-- `pynini.closure(e, 1)`: one or more repetitions. -/
def Fst.plus (e : Fst) : Fst := .seq e (.star e)

/-- `pynutil.insert s`. -/
def Fst.ins (s : String) : Fst := .cross [] s.toList

/-- `pynutil.delete s`. -/
def Fst.del (s : String) : Fst := .cross s.toList []

/-- Constructor-shaped introduction rule for `seq` taking the input/output
splits and the weight sum as separate equations (convenient for building
concrete accepting paths). -/
theorem Accepts.seq' {env : FstEnv} {e₁ e₂ : Fst} {i₁ o₁ i₂ o₂ i o : List Char}
    {w₁ w₂ w : ℚ} (h₁ : Accepts env e₁ i₁ o₁ w₁) (h₂ : Accepts env e₂ i₂ o₂ w₂)
    (hi : i = i₁ ++ i₂) (ho : o = o₁ ++ o₂) (hw : w = w₁ + w₂) :
    Accepts env (.seq e₁ e₂) i o w := by
  subst hi; subst ho; subst hw; exact .seq h₁ h₂

/-- Introduction rule for a single `star` unfolding with explicit equations. -/
theorem Accepts.starCons' {env : FstEnv} {e : Fst} {i₁ o₁ i₂ o₂ i o : List Char}
    {w₁ w₂ w : ℚ} (h₁ : Accepts env e i₁ o₁ w₁) (h₂ : Accepts env (.star e) i₂ o₂ w₂)
    (hi : i = i₁ ++ i₂) (ho : o = o₁ ++ o₂) (hw : w = w₁ + w₂) :
    Accepts env (.star e) i o w := by
  subst hi; subst ho; subst hw; exact .starCons h₁ h₂

/-- Introduction rule for `wt` with an explicit weight equation. -/
theorem Accepts.wt' {env : FstEnv} {e : Fst} {i o : List Char} {v w₀ w : ℚ}
    (h : Accepts env e i o w₀) (hw : w = v + w₀) : Accepts env (.wt v e) i o w := by
  subst hw; exact .wt h

/-- Inversion for `seq`. -/
theorem accepts_seq_inv {env : FstEnv} {e₁ e₂ : Fst} {i o : List Char} {w : ℚ}
    (h : Accepts env (.seq e₁ e₂) i o w) :
    ∃ i₁ o₁ w₁ i₂ o₂ w₂, Accepts env e₁ i₁ o₁ w₁ ∧ Accepts env e₂ i₂ o₂ w₂ ∧
      i = i₁ ++ i₂ ∧ o = o₁ ++ o₂ ∧ w = w₁ + w₂ := by
  cases h with
  | seq h₁ h₂ => exact ⟨_, _, _, _, _, _, h₁, h₂, rfl, rfl, rfl⟩

/-- Inversion for `alt`. -/
theorem accepts_alt_inv {env : FstEnv} {e₁ e₂ : Fst} {i o : List Char} {w : ℚ}
    (h : Accepts env (.alt e₁ e₂) i o w) :
    Accepts env e₁ i o w ∨ Accepts env e₂ i o w := by
  cases h with
  | altL h => exact Or.inl h
  | altR h => exact Or.inr h

/-- Inversion for `cross`. -/
theorem accepts_cross_inv {env : FstEnv} {a b i o : List Char} {w : ℚ}
    (h : Accepts env (.cross a b) i o w) : i = a ∧ o = b ∧ w = 0 := by
  cases h with
  | cross => exact ⟨rfl, rfl, rfl⟩

/-- Inversion for `idOn`. -/
theorem accepts_idOn_inv {env : FstEnv} {p : List Char → Bool} {i o : List Char} {w : ℚ}
    (h : Accepts env (.idOn p) i o w) : o = i ∧ p i = true ∧ w = 0 := by
  cases h with
  | idOn hp => exact ⟨rfl, hp, rfl⟩

/-- Inversion for `wt`. -/
theorem accepts_wt_inv {env : FstEnv} {v : ℚ} {e : Fst} {i o : List Char} {w : ℚ}
    (h : Accepts env (.wt v e) i o w) : ∃ w₀, Accepts env e i o w₀ ∧ w = v + w₀ := by
  cases h with
  | wt h => exact ⟨_, h, rfl⟩

/-- Inversion for `comp`. -/
theorem accepts_comp_inv {env : FstEnv} {e₁ e₂ : Fst} {i o : List Char} {w : ℚ}
    (h : Accepts env (.comp e₁ e₂) i o w) :
    ∃ m w₁ w₂, Accepts env e₁ i m w₁ ∧ Accepts env e₂ m o w₂ ∧ w = w₁ + w₂ := by
  cases h with
  | comp h₁ h₂ => exact ⟨_, _, _, h₁, h₂, rfl⟩

/-- Inversion for `atom`. -/
theorem accepts_atom_inv {env : FstEnv} {n : Nat} {i o : List Char} {w : ℚ}
    (h : Accepts env (.atom n) i o w) : env n i o w := by
  cases h with
  | atom h => exact h

/-- A closure of single-character deletions (the shape of `delete_space`)
only ever outputs the empty string, at weight 0. -/
theorem accepts_star_delClass {env : FstEnv} {p : Char → Bool} {i o : List Char} {w : ℚ}
    (h : Accepts env (.star (.delClass p)) i o w) : o = [] ∧ w = 0 := by
  generalize he : Fst.star (.delClass p) = e at h
  induction h with
  | starNil => exact ⟨rfl, rfl⟩
  | starCons h₁ h₂ ih₁ ih₂ =>
    cases he
    cases h₁ with
    | delClass hp =>
      obtain ⟨ho, hw⟩ := ih₂ rfl
      simp [ho, hw]
  | idOn h => cases he
  | keepClass h => cases he
  | delClass h => cases he
  | cross a b => cases he
  | seq h₁ h₂ ih₁ ih₂ => cases he
  | altL h ih => cases he
  | altR h ih => cases he
  | wt h ih => cases he
  | comp h₁ h₂ ih₁ ih₂ => cases he
  | atom h => cases he

/-- A `plus` of a one-character identity class accepts any nonempty string
of class characters, unchanged, at weight 0. -/
theorem accepts_plus_keepClass {env : FstEnv} {p : Char → Bool} :
    ∀ (s : List Char), s ≠ [] → (∀ c ∈ s, p c = true) →
      Accepts env (.plus (.keepClass p)) s s 0
  | [], h, _ => absurd rfl h
  | [c], _, hall => by
      have hc : p c = true := hall c (by simp)
      have h1 : Accepts env (.keepClass p) [c] [c] 0 := .keepClass hc
      have h2 : Accepts env (.star (.keepClass p)) [] [] 0 := .starNil
      exact Accepts.seq' h1 h2 (by simp) (by simp) (by norm_num)
  | c :: d :: t, _, hall => by
      have hc : p c = true := hall c (by simp)
      have hrest : Accepts env (.plus (.keepClass p)) (d :: t) (d :: t) 0 :=
        accepts_plus_keepClass (d :: t) (by simp) (fun x hx => hall x (by simp [hx]))
      obtain ⟨i₁, o₁, w₁, i₂, o₂, w₂, h₁, h₂, hi, ho, hw⟩ := accepts_seq_inv hrest
      have hstar : Accepts env (.star (.keepClass p)) (d :: t) (d :: t) 0 :=
        Accepts.starCons' h₁ h₂ hi ho hw
      exact Accepts.seq' (.keepClass hc) hstar (by simp) (by simp) (by norm_num)

/-- A closure of single-character deletions accepts any string of class
characters, deleting it, at weight 0. -/
theorem accepts_star_delClass_of {env : FstEnv} {p : Char → Bool} :
    ∀ (s : List Char), (∀ c ∈ s, p c = true) →
      Accepts env (.star (.delClass p)) s [] 0
  | [], _ => .starNil
  | c :: t, hall => by
      have hc : p c = true := hall c (by simp)
      have ht : Accepts env (.star (.delClass p)) t [] 0 :=
        accepts_star_delClass_of t (fun x hx => hall x (by simp [hx]))
      exact Accepts.starCons' (.delClass hc) ht (by simp) (by simp) (by norm_num)

/-! ### Shared grammar primitives (`graph_utils`)

These mirror the `graph_utils` building blocks the two grammar files
import.  `graph_utils.py` itself is not part of the sources under
verification, so the primitives are modelled from the spec's
"Grammar Primitives" section. -/

/-- Modelled from the spec: `NEMO_ALPHA`, the union of the ASCII letters
`a`-`z` and `A`-`Z` as a one-character identity transducer. -/
def isAsciiAlpha (c : Char) : Bool :=
  (97 ≤ c.toNat && c.toNat ≤ 122) || (65 ≤ c.toNat && c.toNat ≤ 90)

/-- Modelled from the spec: whitespace characters handled by the
space-normalization helpers. -/
def isPyWhite (c : Char) : Bool :=
  c = ' ' || c = '\t' || c = '\n' || c = '\r'

/-- `NEMO_ALPHA`. -/
def NEMO_ALPHA : Fst := .keepClass isAsciiAlpha

/-- `NEMO_NOT_QUOTE`: any single character other than `"`. -/
def NEMO_NOT_QUOTE : Fst := .keepClass (fun c => !(c == '"'))

/-- Modelled from the spec: `delete_space` deletes an arbitrary (possibly
empty) run of whitespace. -/
def delete_space : Fst := .star (.delClass isPyWhite)

/-- `insert_space`: inserts a single space. -/
def insert_space : Fst := .cross [] [' ']

/-- The non-breaking space character `NEMO_NON_BREAKING_SPACE`. -/
def nbspChar : Char := Char.ofNat 160

/-! ### Measure classify grammar (`taggers/measure.py`)

Abstract atoms: `atom 0` is `cardinal.graph`, `atom 1` is
`decimal.final_graph_wo_negative`, `atom 2` is `convert_space(graph_unit)`
(the measurements lexicon) and `atom 3` is
`convert_space(graph_unit @ SINGULAR_TO_PLURAL)` (its pluralized form).
All four are built outside this source file (cardinal/decimal grammars,
`data/measurements.tsv`, `graph_utils`), hence modelled as atoms. -/

/-- `cardinal.graph` (abstract: built by `CardinalFst`). -/
def cardinalAtom : Fst := .atom 0

/-- `decimal.final_graph_wo_negative` (abstract: built by `DecimalFst`). -/
def decimalAtom : Fst := .atom 1

/-- Modelled from the spec: the measurements lexicon transducer
`convert_space(graph_unit)` loaded from `data/measurements.tsv`. -/
def graph_unit : Fst := .atom 2

/-- Modelled from the spec: the pluralized measurements lexicon
`convert_space(graph_unit @ SINGULAR_TO_PLURAL)`. -/
def graph_unit_plural : Fst := .atom 3

/-- `optional_graph_negative`: optionally rewrites a leading `-` to the
tagged field `negative: "true" `. -/
def optional_graph_negative : Fst :=
  .opt (.seq (.ins ("negative: ")) (.cross ("-".toList) ("\"true\" ".toList)))

/-- `graph_unit2`: `/` rewritten to `per`, then a non-breaking space and a
unit. -/
def graph_unit2 : Fst :=
  .seq (.cross ("/".toList) ("per".toList))
    (.seq delete_space (.seq (.cross [] [nbspChar]) graph_unit))

/-- `optional_graph_unit2`. -/
def optional_graph_unit2 : Fst :=
  .opt (.seq delete_space (.seq (.cross [] [nbspChar]) graph_unit2))

/-- `unit_plural`: the plural unit field `units: "..."`. -/
def unit_plural : Fst :=
  .seq (.ins ("units: \""))
    (.seq (.alt (.seq graph_unit_plural optional_graph_unit2) graph_unit2)
      (.ins ("\"")))

/-- `unit_singular`: the singular unit field `units: "..."`. -/
def unit_singular : Fst :=
  .seq (.ins ("units: \""))
    (.seq (.alt (.seq graph_unit optional_graph_unit2) graph_unit2)
      (.ins ("\"")))

/-- `subgraph_decimal` before weighting: canonical decimal measure. -/
def subgraph_decimal_canonical : Fst :=
  .seq (.ins ("decimal \x7b "))
    (.seq optional_graph_negative
      (.seq decimalAtom
        (.seq delete_space (.seq (.ins (" \x7d ")) unit_plural))))

/-- First `subgraph_cardinal` branch: any cardinal other than the literal
`1` (the `(NEMO_SIGMA - "1") @ cardinal_graph` restriction), with the
plural unit form. -/
def subgraph_cardinal_plural : Fst :=
  .seq (.ins ("cardinal \x7b "))
    (.seq optional_graph_negative
      (.seq (.ins ("integer: \""))
        (.seq (.comp (.idOn (fun s => !(s == ("1".toList)))) cardinalAtom)
          (.seq delete_space
            (.seq (.ins ("\""))
              (.seq (.ins (" \x7d ")) unit_plural))))))

/-- Second `subgraph_cardinal` branch: the literal `1` crossed to `one`,
with the singular unit form. -/
def subgraph_cardinal_singular : Fst :=
  .seq (.ins ("cardinal \x7b "))
    (.seq optional_graph_negative
      (.seq (.ins ("integer: \""))
        (.seq (.cross ("1".toList) ("one".toList))
          (.seq delete_space
            (.seq (.ins ("\""))
              (.seq (.ins (" \x7d ")) unit_singular))))))

/-- `subgraph_cardinal` before the serial fallback is unioned in. -/
def subgraph_cardinal_canonical : Fst :=
  .alt subgraph_cardinal_plural subgraph_cardinal_singular

/-- `serial_graph_cardinal_end`: a cardinal followed by a letter (with an
inserted space, or a `-` crossed to a space). -/
def serial_graph_cardinal_end : Fst :=
  .seq cardinalAtom
    (.alt (.seq (.ins (" ")) NEMO_ALPHA)
      (.seq (.cross ("-".toList) (" ".toList)) NEMO_ALPHA))

/-- `serial_graph_cardinal_start`: a letter (or `-` crossed to a space and
a letter) followed by a cardinal. -/
def serial_graph_cardinal_start : Fst :=
  .seq (.alt (.seq NEMO_ALPHA (.ins (" ")))
      (.seq (.cross ("-".toList) (" ".toList)) NEMO_ALPHA))
    cardinalAtom

/-- `optional_serial_start`. -/
def optional_serial_start : Fst :=
  .star (.alt (.seq NEMO_ALPHA (.cross ("-".toList) (" ".toList)))
    (.seq NEMO_ALPHA (.ins (" "))))

/-- The inner `serial_graph_decimal` unit (before the closure wrapper):
a decimal followed by a letter. -/
def serial_graph_decimal_unit : Fst :=
  .seq decimalAtom
    (.alt (.seq (.ins (" ")) NEMO_ALPHA)
      (.seq (.cross ("-".toList) (" ".toList)) NEMO_ALPHA))

/-- `serial_graph_decimal` after the closure wrapper. -/
def serial_graph_decimal : Fst :=
  .seq optional_serial_start
    (.seq serial_graph_decimal_unit
      (.star (.seq (.ins (" ")) serial_graph_decimal_unit)))

/-- The body of the serial fallback branch of `subgraph_cardinal`,
tagging its match with `units: "serial"`. -/
def subgraph_cardinal_serial_body : Fst :=
  .seq (.ins ("cardinal \x7b "))
    (.seq optional_graph_negative
      (.seq (.ins ("integer: \""))
        (.seq (.alt serial_graph_cardinal_end serial_graph_cardinal_start)
          (.seq delete_space
            (.ins ("\" \x7d units: \"serial\""))))))

/-- The serial fallback branch of `subgraph_cardinal`, at weight `2.1`. -/
def subgraph_cardinal_serial : Fst :=
  .wt (21 / 10) subgraph_cardinal_serial_body

/-- The final `subgraph_cardinal`: the canonical branch at weight `1.09`
unioned with the serial fallback at weight `2.1`. -/
def subgraph_cardinal : Fst :=
  .alt (.wt (109 / 100) subgraph_cardinal_canonical) subgraph_cardinal_serial

/-- The body of the serial fallback branch of `subgraph_decimal`,
closing its tag with `units: ""`. -/
def subgraph_decimal_serial_body : Fst :=
  .seq (.ins ("decimal \x7b "))
    (.seq optional_graph_negative
      (.seq serial_graph_decimal
        (.ins (" \x7d units: \"\""))))

/-- The serial fallback branch of `subgraph_decimal`, at weight `2.1`. -/
def subgraph_decimal_serial : Fst :=
  .wt (21 / 10) subgraph_decimal_serial_body

/-- The final `subgraph_decimal`. -/
def subgraph_decimal : Fst :=
  .alt (.wt (109 / 100) subgraph_decimal_canonical) subgraph_decimal_serial

/-- `final_graph = subgraph_decimal | subgraph_cardinal` (before the
`add_tokens` wrapper, which lives in `graph_utils`). -/
def measure_final_graph : Fst := .alt subgraph_decimal subgraph_cardinal

/-! ### Money verbalize grammar (`verbalizers/money.py`)

The grammar is fully concrete except for the minor-currency lexicon file
`data/currency_minor.tsv`, which enters as the parameter `minors` (one
entry per line of the file). -/

/-- The shared shape `delete(label) + delete_space + delete(quote) +
closure(NEMO_NOT_QUOTE, 1) + delete(quote)` used by the `integer`,
`fractional_default`, `quantity` and `unit` pieces of `MoneyFst`. -/
def fieldPat (label : String) : Fst :=
  .seq (.del label)
    (.seq delete_space
      (.seq (.del ("\"")) (.seq (.plus NEMO_NOT_QUOTE) (.del ("\"")))))

/-- `optional_sign`: `negative: "true"` crossed to `minus `. -/
def money_optional_sign : Fst :=
  .opt (.seq (.cross ("negative: \"true\"".toList) ("minus ".toList)) delete_space)

/-- `integer`: reads the `integer_part` field. -/
def money_integer : Fst := fieldPat ("integer_part:")

/-- `optional_integer`. -/
def money_optional_integer : Fst :=
  .opt (.seq money_integer (.seq delete_space insert_space))

/-- `fractional_default`: reads the `fractional_part` field verbatim. -/
def money_fractional_default : Fst := fieldPat ("fractional_part:")

/-- The `point <digits>` reading of the fractional part. -/
def money_fractional_point : Fst := .seq (.ins ("point ")) money_fractional_default

/-- `fractional2` (non-deterministic mode only): a fractional part that is
exactly the word `zero` followed by zero or more ` zero` groups is
verbalized as nothing. -/
def money_fractional2 : Fst :=
  .seq (.del ("fractional_part:"))
    (.seq delete_space
      (.seq (.del ("\""))
        (.seq (.cross ("zero".toList) [])
          (.seq (.star (.cross (" zero".toList) []))
            (.seq delete_space (.seq (.del ("\"")) delete_space))))))

/-- `fractional`: in deterministic mode only the `point` reading; in
non-deterministic mode the weighted union of the `point` reading, the
silent all-zeros reading and the verbatim reading. -/
def money_fractional (deterministic : Bool) : Fst :=
  if deterministic then money_fractional_point
  else .alt money_fractional_point (.alt money_fractional2 money_fractional_default)

/-- `quantity`. -/
def money_quantity : Fst :=
  .seq delete_space (.seq insert_space (fieldPat ("quantity:")))

/-- `optional_quantity`. -/
def money_optional_quantity : Fst := .opt money_quantity

/-- `unit`: reads the `currency` field. -/
def money_unit : Fst := fieldPat ("currency:")

/-- The deterministic `MoneyFst` graph (line 98-99): a weighted union of
the bare-integer, integer+quantity and optional-integer + fractional +
optional-quantity variants, followed by the currency unit. -/
def moneyGraphDet : Fst :=
  .seq
    (.seq money_optional_sign
      (.alt money_integer
        (.alt (.seq money_integer money_quantity)
          (.seq money_optional_integer
            (.seq (money_fractional true) money_optional_quantity)))))
    (.seq delete_space (.seq (.ins (" ")) money_unit))

/-- One entry of the minor-currency union:
`pynini.closure(pynutil.insert(min_cur + " "), 0, 1)`. -/
def minorArm (m : String) : Fst := .opt (.cross [] (m.toList ++ [' ']))

/-- `pynini.union(*minor_currencies)`: the union over the lines of
`data/currency_minor.tsv` (modelled from the spec as the abstract list
`minors`; the empty union accepts nothing). -/
def minorUnion (minors : List String) : Fst :=
  minors.foldr (fun m acc => .alt (minorArm m) acc) (.idOn (fun _ => false))

/-- The non-deterministic `MoneyFst` graph (lines 113-124): integer, then
the currency unit, then an optional lexicon minor-currency insertion, then
the fractional part, then an unconditional inserted `cents`/`pence`. -/
def moneyGraphNonDet (minors : List String) : Fst :=
  .seq money_integer
    (.seq delete_space
      (.seq insert_space
        (.seq money_unit
          (.seq delete_space
            (.seq insert_space
              (.seq (minorUnion minors)
                (.seq (money_fractional false)
                  (.seq insert_space
                    (.alt (.ins ("cents")) (.ins ("pence")))))))))))

/-! ### Transcript disambiguator (`normalize_with_audio.py`)

The tagged-lattice machinery (`ClassifyFst`, `find_tags`,
`select_all_semiotic_tags`, the token parser, `generate_permutations`,
`find_verbalizer`, `get_all_verbalizers`) lives outside the three source
files; it enters the embedding as two abstract functions: `tagger` (text ↦
n-best tagged strings) and `candGen` (tagged string ↦ verbalized
candidates).  Everything else is embedded concretely. -/

/-- Recursion core of `pyReplace`, structurally recursive on a fuel bound.
The fuel only needs to dominate the input length (each step consumes at
least one input character when the pattern is nonempty), so the fallback
branch below is unreachable from `pyReplace`. -/
def pyReplaceFuel (pat repl : List Char) : Nat → List Char → List Char
  | _, [] => []
  | 0, s => s
  | fuel + 1, c :: rest =>
    if pat ≠ [] ∧ pat.isPrefixOf (c :: rest) then
      repl ++ pyReplaceFuel pat repl fuel ((c :: rest).drop pat.length)
    else
      c :: pyReplaceFuel pat repl fuel rest

/-- Python `str.replace(pat, repl)`: left-to-right, non-overlapping
replacement of every occurrence of `pat`. -/
def pyReplace (s pat repl : List Char) : List Char :=
  pyReplaceFuel pat repl s.length s

/-- Recursion core of `collapseSpaces`, structurally recursive on a fuel
bound dominating the input length. -/
def collapseSpacesFuel : Nat → List Char → List Char
  | _, [] => []
  | 0, s => s
  | fuel + 1, c :: rest =>
    if c = ' ' then ' ' :: collapseSpacesFuel fuel (rest.dropWhile (fun d => d == ' '))
    else c :: collapseSpacesFuel fuel rest

/-- Python `re.sub(r' +', ' ', s)`: collapse runs of spaces. -/
def collapseSpaces (s : List Char) : List Char :=
  collapseSpacesFuel s.length s

/-- Python `str.strip()`: remove leading and trailing whitespace. -/
def pyStrip (s : List Char) : List Char :=
  ((s.dropWhile isPyWhite).reverse.dropWhile isPyWhite).reverse

/-- Modelled from the spec: Python `str.lower()` restricted to ASCII
(all strings the claims exercise are ASCII). -/
def lowerChar (c : Char) : Char :=
  if 65 ≤ c.toNat ∧ c.toNat ≤ 90 then Char.ofNat (c.toNat + 32) else c

/-- Case-fold a string. -/
def mapLower (s : List Char) : List Char := s.map lowerChar

/-- Recursion core of `editDistance`, structurally recursive on a fuel
bound dominating the sum of the two lengths (each recursive call shortens
at least one list, so the fallback branch below is unreachable from
`editDistance`). -/
def editDistanceFuel : Nat → List Char → List Char → Nat
  | _, [], ys => ys.length
  | _, x :: xs, [] => (x :: xs).length
  | 0, _, _ => 0
  | fuel + 1, x :: xs, y :: ys =>
    if x = y then editDistanceFuel fuel xs ys
    else 1 + min (editDistanceFuel fuel xs (y :: ys))
      (min (editDistanceFuel fuel (x :: xs) ys) (editDistanceFuel fuel xs ys))

/-- Character-level Levenshtein edit distance (unit costs), as computed by
the `editdistance` package used by `word_error_rate(use_cer=True)`. -/
def editDistance (a b : List Char) : Nat :=
  editDistanceFuel (a.length + b.length) a b

/-- Round to the nearest integer, halves up: `⌊q + 1/2⌋` computed directly
on the numerator and denominator. -/
def roundHalfUp (q : ℚ) : ℤ := Int.fdiv (2 * q.num + (q.den : ℤ)) (2 * (q.den : ℤ))

/-- Modelled from the spec: Python `round(x, 2)` (two decimal places; the
tie-breaking mode is irrelevant to every value computed below). -/
def round2 (q : ℚ) : ℚ := (roundHalfUp (q * 100) : ℚ) / 100

/-- Modelled from the spec: `word_error_rate([hyp], [ref], use_cer=True)`,
the character edit distance divided by the reference length.  (The code
passes the transcript as the hypothesis and the cleaned candidate as the
reference.  The empty-reference case — an infinite rate in the source — is
never exercised below.) -/
def word_error_rate_cer (hyp ref : List Char) : ℚ :=
  (editDistance hyp ref : ℚ) / (ref.length : ℚ)

/-- The punctuation set of `normalize_with_audio` (line 98). -/
def punctuationChars : List Char := "!,.:;?".toList

/-- The per-candidate display normalization (lines 99-104): delete a space
before sentence punctuation, collapse `--`, normalize parenthesis spacing,
collapse double spaces. -/
def punctNormalize (t : List Char) : List Char :=
  let t1 := punctuationChars.foldl (fun acc p => pyReplace acc [' ', p] [p]) t
  let t2 := pyReplace t1 ("--".toList) ("-".toList)
  let t3 := pyReplace t2 ("( ".toList) ("(".toList)
  let t4 := pyReplace t3 (" )".toList) (")".toList)
  pyReplace t4 ("  ".toList) (" ".toList)

/-- The scoring copy of a candidate (lines 109-115): optionally lower-case,
strip the punctuation set, convert hyphens to spaces. -/
def textCleanFn (asr_lower : Bool) (text : List Char) : List Char :=
  let t1 := if asr_lower then mapLower text else text
  let t2 := punctuationChars.foldl (fun acc p => pyReplace acc [p] []) t1
  pyReplace t2 ("-".toList) (" ".toList)

/-- The score attached to one candidate (line 116):
`round(word_error_rate([transcript], [text_clean], use_cer=True) * 100, 2)`. -/
def scoreCandidate (asr_lower : Bool) (transcript text : List Char) : ℚ :=
  round2 (word_error_rate_cer transcript (textCleanFn asr_lower text) * 100)

/-- Order-preserving deduplication (Python `set(...)` modulo its
unspecified iteration order). -/
def pyDedupAux (seen : List (List Char)) : List (List Char) → List (List Char)
  | [] => []
  | x :: rest =>
    if seen.contains x then pyDedupAux seen rest
    else x :: pyDedupAux (x :: seen) rest

/-- Deduplicate, keeping first occurrences. -/
def pyDedup (l : List (List Char)) : List (List Char) := pyDedupAux [] l

/-- The Python exceptions the embedded pipeline can raise. -/
inductive PyError where
  | typeError
  | valueError
  | indexError
deriving DecidableEq

/-- `get_tagged_texts` (lines 63-72): strip the input; an empty result
short-circuits and returns the (string-typed) empty text, otherwise the
tagger's n-best tagged strings (a list) are returned.  The dynamic type
difference between the two branches is preserved with a sum. -/
def get_tagged_texts (tagger : List Char → List (List Char)) (text : List Char) :
    Sum (List Char) (List (List Char)) :=
  let t := pyStrip text
  if t = [] then .inl t else .inr (tagger t)

/-- `preprocess` (lines 135-147). -/
def preprocess (text : List Char) : List Char :=
  let t1 := pyReplace text ("--".toList) ("-".toList)
  let t2 := ("!?:;,.-()*+-/<=>@^_".toList).foldl (fun acc p => pyReplace acc [p] [p, ' ']) t1
  let t3 := ("-()*+-/<=>@^_".toList).foldl (fun acc p => pyReplace acc [p] [' ', p, ' ']) t2
  collapseSpaces t3

/-- Python `set(xs)` applied to a string: the set of its characters. -/
def pySetOfChars (s : List Char) : List (List Char) :=
  pyDedup (s.map (fun c => [c]))

/-- Line 74: `set(get_tagged_texts(text) + get_tagged_texts(preprocess(text)))`.
When both calls return strings, `+` concatenates them and `set` collects
their characters; when both return lists, `+` appends and `set`
deduplicates; mixing the two dynamic types would be a `TypeError`. -/
def taggedTextsOf (tagger : List Char → List (List Char)) (text : List Char) :
    Except PyError (List (List Char)) :=
  match get_tagged_texts tagger text, get_tagged_texts tagger (preprocess text) with
  | .inl a, .inl b => .ok (pySetOfChars (a ++ b))
  | .inr a, .inr b => .ok (pyDedup (a ++ b))
  | .inl _, .inr _ => .error .typeError
  | .inr _, .inl _ => .error .typeError

/-- Stable ascending sort by score (line 119). -/
def sortByScore (l : List (List Char × ℚ)) : List (List Char × ℚ) :=
  l.mergeSort (fun a b => a.2 ≤ b.2)

/-- `NormalizerWithAudio.normalize_with_audio` (lines 53-123) with the
external tagging and verbalization stages abstracted: `tagger` produces
the n-best tagged strings of a (stripped, escaped) text and `candGen` the
verbalized candidates of one tagged string (parser, permutation generation
and verbalizer lattice included).  The `transcript` may be `none` — the
Python caller in `__main__` passes `None` — in which case the scoring loop
applies `word_error_rate` to `None` and dies with a `TypeError`; there is
no skip branch. -/
def normalize_with_audio (tagger candGen : List Char → List (List Char))
    (text : List Char) (transcript : Option (List Char)) (asr_lower : Bool) :
    Except PyError (List Char × ℚ) :=
  match taggedTextsOf tagger text with
  | .error e => .error e
  | .ok tagged =>
    let normalized_texts := tagged.flatMap candGen
    if normalized_texts = [] then .error .valueError
    else
      let displayed := pyDedup (normalized_texts.map punctNormalize)
      match transcript with
      | none => .error .typeError
      | some tr =>
        let options := displayed.map (fun x => (x, scoreCandidate asr_lower tr x))
        match sortByScore options with
        | [] => .error .indexError
        | o :: _ => .ok o

/-! ### Claims about the transcript disambiguator (C1, C2, C8, C9) -/

/-- C2: claimed — the empty (or whitespace-only) input string returns the
empty/whitespace result without raising.  What the code actually does:
`get_tagged_texts` short-circuits and returns the *string* `""`, the two
string results are concatenated and fed to `set(...)`, which yields the
empty set, so the candidate list stays empty and the function raises the
no-candidate `ValueError` — for every tagger, verbalizer, transcript and
case flag. -/
theorem normalize_with_audio_empty_input_raises
    (tagger candGen : List Char → List (List Char))
    (transcript : Option (List Char)) (asr_lower : Bool) :
    normalize_with_audio tagger candGen ("".toList) transcript asr_lower
        = .error .valueError ∧
    normalize_with_audio tagger candGen (" ".toList) transcript asr_lower
        = .error .valueError :=
  ⟨rfl, rfl⟩

/-- C1: claimed — a `None` reference transcript skips edit-distance scoring
and returns the first candidate unscored.  What the code actually does:
there is no skip branch; whenever candidate generation succeeds the
scoring loop hands `None` to `word_error_rate`, which dies with a
`TypeError` (`list(None)`). -/
theorem normalize_with_audio_none_transcript_raises
    (tagger candGen : List Char → List (List Char)) (text : List Char)
    (asr_lower : Bool) (tl : List (List Char))
    (htag : taggedTextsOf tagger text = .ok tl)
    (hne : tl.flatMap candGen ≠ []) :
    normalize_with_audio tagger candGen text none asr_lower = .error .typeError := by
  unfold normalize_with_audio
  rw [htag]
  simp [hne]

/-- Concrete instance of the `None`-transcript failure: one tagged text,
one candidate `"two"`, input `"x"`. -/
theorem normalize_with_audio_none_transcript_raises_witness :
    normalize_with_audio (fun _ => [("t".toList)]) (fun _ => [("two".toList)])
        ("x".toList) none true = .error .typeError :=
  normalize_with_audio_none_transcript_raises _ _ _ _ [("t".toList)] rfl (by decide)

/-- C9: if the candidate set produced by tagging and verbalization is
empty, `normalize_with_audio` raises the no-candidate `ValueError` (line
95-96) rather than defaulting. -/
theorem normalize_with_audio_no_candidates_raises
    (tagger candGen : List Char → List (List Char)) (text : List Char)
    (transcript : Option (List Char)) (asr_lower : Bool) (tl : List (List Char))
    (htag : taggedTextsOf tagger text = .ok tl)
    (hempty : tl.flatMap candGen = []) :
    normalize_with_audio tagger candGen text transcript asr_lower
        = .error .valueError := by
  unfold normalize_with_audio
  rw [htag]
  simp [hempty]

/-- Concrete instance of the no-candidate error: the verbalization stage
returns no candidate for the only tagged text. -/
theorem normalize_with_audio_no_candidates_raises_witness :
    normalize_with_audio (fun _ => [("t".toList)]) (fun _ => [])
        ("x".toList) (some ("two".toList)) true = .error .valueError :=
  normalize_with_audio_no_candidates_raises _ _ _ _ _ [("t".toList)] rfl rfl

/-- The claim's reading of the scoring step (C8): *both* the candidate's
scoring copy and the reference transcript case-folded before the edit
distance is computed.  Stated from the spec's words, for comparison with
`scoreCandidate`, which embeds the code (lines 107-117) and folds only the
candidate. -/
def scoreCandidateBothFolded (asr_lower : Bool) (transcript text : List Char) : ℚ :=
  round2 (word_error_rate_cer (if asr_lower then mapLower transcript else transcript)
    (textCleanFn asr_lower text) * 100)

/-- C8 counterexample: with the flag on, transcript `"TWO"` against
candidate `"Two"` scores 100 in the code (the transcript is *not*
case-folded) but would score 0 under the claim's both-folded reading. -/
theorem scoreCandidate_counterexample :
    scoreCandidate true ("TWO".toList) ("Two".toList) ≠
      scoreCandidateBothFolded true ("TWO".toList) ("Two".toList) := by
  have h1 : scoreCandidate true ("TWO".toList) ("Two".toList) = 100 := by
    have e : scoreCandidate true ("TWO".toList) ("Two".toList)
        = round2 (((3 : ℕ) : ℚ) / ((3 : ℕ) : ℚ) * 100) := rfl
    rw [e]
    norm_num [round2, roundHalfUp, show Int.fdiv 20001 2 = 10000 from by decide]
  have h2 : scoreCandidateBothFolded true ("TWO".toList) ("Two".toList) = 0 := by
    have e : scoreCandidateBothFolded true ("TWO".toList) ("Two".toList)
        = round2 (((0 : ℕ) : ℚ) / ((3 : ℕ) : ℚ) * 100) := rfl
    rw [e]
    norm_num [round2, roundHalfUp, show Int.fdiv 1 2 = 0 from by decide]
  rw [h1, h2]
  norm_num

/-- ASCII lower-casing is idempotent. -/
theorem lowerChar_idem (c : Char) : lowerChar (lowerChar c) = lowerChar c := by
  by_cases h : 65 ≤ c.toNat ∧ c.toNat ≤ 90
  · have h1 : lowerChar c = Char.ofNat (c.toNat + 32) := by rw [lowerChar, if_pos h]
    rw [h1]
    obtain ⟨ha, hb⟩ := h
    generalize c.toNat = n at ha hb
    interval_cases n <;> decide
  · have h2 : lowerChar c = c := by rw [lowerChar, if_neg h]
    rw [h2]
    exact h2

/-- Case-folding a string is idempotent. -/
theorem mapLower_idem (s : List Char) : mapLower (mapLower s) = mapLower s := by
  simp only [mapLower, List.map_map]
  exact List.map_congr_left (fun c _ => lowerChar_idem c)

/-- C8 amended: with the case-folding flag on (its default), only the
candidate's scoring copy is case-folded before the edit-distance score is
computed — a candidate differing only in ASCII case scores identically —
while the reference transcript is compared without case-folding, so
transcripts differing only in case can score differently. -/
theorem scoreCandidate_folds_candidate_only :
    (∀ t x, scoreCandidate true t (mapLower x) = scoreCandidate true t x) ∧
    scoreCandidate true ("TWO".toList) ("two".toList) ≠
      scoreCandidate true ("two".toList) ("two".toList) := by
  constructor
  · intro t x
    have hclean : textCleanFn true (mapLower x) = textCleanFn true x := by
      simp only [textCleanFn, if_pos, mapLower_idem]
    simp only [scoreCandidate, hclean]
  · have h1 : scoreCandidate true ("TWO".toList) ("two".toList) = 100 := by
      have e : scoreCandidate true ("TWO".toList) ("two".toList)
          = round2 (((3 : ℕ) : ℚ) / ((3 : ℕ) : ℚ) * 100) := rfl
      rw [e]
      norm_num [round2, roundHalfUp, show Int.fdiv 20001 2 = 10000 from by decide]
    have h2 : scoreCandidate true ("two".toList) ("two".toList) = 0 := by
      have e : scoreCandidate true ("two".toList) ("two".toList)
          = round2 (((0 : ℕ) : ℚ) / ((3 : ℕ) : ℚ) * 100) := rfl
      rw [e]
      norm_num [round2, roundHalfUp, show Int.fdiv 1 2 = 0 from by decide]
    rw [h1, h2]
    norm_num

/-! ### Claims about the money verbalizer (C5, C6, C10) -/

/-- The empty atom environment (the money grammar pieces are concrete and
use no atoms). -/
def envNone : FstEnv := fun _ _ _ _ => False

/-- A `fieldPat label` accepts `label` + space + a quoted nonempty
quote-free value, emitting the bare value at weight 0. -/
theorem accepts_fieldPat {env : FstEnv} (label : String) (v : List Char)
    (hne : v ≠ []) (hq : ∀ c ∈ v, (!(c == '"')) = true) :
    Accepts env (fieldPat label) (label.toList ++ (' ' :: '"' :: (v ++ ['"']))) v 0 := by
  have h1 : Accepts env (.del label) label.toList [] 0 := .cross _ _
  have h2 : Accepts env delete_space [' '] [] 0 :=
    accepts_star_delClass_of [' '] (by decide)
  have h3 : Accepts env (.del ("\"")) ['"'] [] 0 := .cross _ _
  have h4 : Accepts env (.plus NEMO_NOT_QUOTE) v v 0 :=
    accepts_plus_keepClass v hne hq
  have h5 : Accepts env (.del ("\"")) ['"'] [] 0 := .cross _ _
  have h45 : Accepts env (.seq (.plus NEMO_NOT_QUOTE) (.del ("\""))) (v ++ ['"']) v 0 :=
    Accepts.seq' h4 h5 (by simp) (by simp) (by norm_num)
  have h345 : Accepts env (.seq (.del ("\"")) (.seq (.plus NEMO_NOT_QUOTE) (.del ("\""))))
      ('"' :: (v ++ ['"'])) v 0 :=
    Accepts.seq' h3 h45 (by simp) (by simp) (by norm_num)
  have h2345 : Accepts env (.seq delete_space (.seq (.del ("\""))
      (.seq (.plus NEMO_NOT_QUOTE) (.del ("\"")))))
      (' ' :: '"' :: (v ++ ['"'])) v 0 :=
    Accepts.seq' h2 h345 (by simp) (by simp) (by norm_num)
  exact Accepts.seq' h1 h2345 rfl (by simp) (by norm_num)

/-- C5: the deterministic money verbalizer graph — a single weighted union,
not call-site branching — accepts all three tagged-token variants: a bare
integer part, an integer part with a quantity suffix, and an
integer+fractional+quantity combination. -/
theorem moneyDet_accepts_three_variants :
    Accepts envNone moneyGraphDet
      ("integer_part: \"twelve\" currency: \"dollars\"".toList)
      ("twelve dollars".toList) 0 ∧
    Accepts envNone moneyGraphDet
      ("integer_part: \"twelve\" quantity: \"million\" currency: \"dollars\"".toList)
      ("twelve million dollars".toList) 0 ∧
    Accepts envNone moneyGraphDet
      ("integer_part: \"twelve\" fractional_part: \"five\" quantity: \"million\" currency: \"dollars\"".toList)
      ("twelve point five million dollars".toList) 0 := by
  have hsign : Accepts envNone money_optional_sign [] [] 0 := .altR (.cross [] [])
  have hint : Accepts envNone money_integer
      ("integer_part: \"twelve\"".toList) ("twelve".toList) 0 :=
    accepts_fieldPat ("integer_part:") ("twelve".toList) (by decide) (by decide)
  have hunit : Accepts envNone money_unit
      ("currency: \"dollars\"".toList) ("dollars".toList) 0 :=
    accepts_fieldPat ("currency:") ("dollars".toList) (by decide) (by decide)
  have hqty : Accepts envNone (fieldPat ("quantity:"))
      ("quantity: \"million\"".toList) ("million".toList) 0 :=
    accepts_fieldPat ("quantity:") ("million".toList) (by decide) (by decide)
  have hfrac : Accepts envNone money_fractional_default
      ("fractional_part: \"five\"".toList) ("five".toList) 0 :=
    accepts_fieldPat ("fractional_part:") ("five".toList) (by decide) (by decide)
  have hsp : Accepts envNone delete_space [' '] [] 0 :=
    accepts_star_delClass_of [' '] (by decide)
  have hinsp : Accepts envNone (Fst.ins (" ")) [] [' '] 0 := .cross _ _
  -- shared tail: delete_space + insert " " + unit, consuming " currency: "dollars""
  have htail : Accepts envNone (.seq delete_space (.seq (.ins (" ")) money_unit))
      ((" currency: \"dollars\"").toList) ((" dollars").toList) 0 := by
    have h2 : Accepts envNone (.seq (Fst.ins (" ")) money_unit)
        ("currency: \"dollars\"".toList) (" dollars".toList) 0 :=
      Accepts.seq' hinsp hunit (by simp) (by decide) (by norm_num)
    exact Accepts.seq' hsp h2 (by decide) (by simp) (by norm_num)
  refine ⟨?_, ?_, ?_⟩
  · -- bare integer
    have hbody : Accepts envNone
        (.alt money_integer
          (.alt (.seq money_integer money_quantity)
            (.seq money_optional_integer
              (.seq (money_fractional true) money_optional_quantity))))
        ("integer_part: \"twelve\"".toList) ("twelve".toList) 0 := .altL hint
    have hleft : Accepts envNone (.seq money_optional_sign
        (.alt money_integer
          (.alt (.seq money_integer money_quantity)
            (.seq money_optional_integer
              (.seq (money_fractional true) money_optional_quantity)))))
        ("integer_part: \"twelve\"".toList) ("twelve".toList) 0 :=
      Accepts.seq' hsign hbody (by simp) (by simp) (by norm_num)
    exact Accepts.seq' hleft htail (by decide) (by decide) (by norm_num)
  · -- integer + quantity
    have hq2 : Accepts envNone money_quantity
        ((" quantity: \"million\"").toList) ((" million").toList) 0 := by
      have ha : Accepts envNone (.seq insert_space (fieldPat ("quantity:")))
          ("quantity: \"million\"".toList) (" million".toList) 0 :=
        Accepts.seq' (.cross [] [' ']) hqty (by simp) (by decide) (by norm_num)
      exact Accepts.seq' hsp ha (by decide) (by simp) (by norm_num)
    have hiq : Accepts envNone (.seq money_integer money_quantity)
        ("integer_part: \"twelve\" quantity: \"million\"".toList)
        ("twelve million".toList) 0 :=
      Accepts.seq' hint hq2 (by decide) (by decide) (by norm_num)
    have hbody : Accepts envNone
        (.alt money_integer
          (.alt (.seq money_integer money_quantity)
            (.seq money_optional_integer
              (.seq (money_fractional true) money_optional_quantity))))
        ("integer_part: \"twelve\" quantity: \"million\"".toList)
        ("twelve million".toList) 0 := .altR (.altL hiq)
    have hleft : Accepts envNone (.seq money_optional_sign
        (.alt money_integer
          (.alt (.seq money_integer money_quantity)
            (.seq money_optional_integer
              (.seq (money_fractional true) money_optional_quantity)))))
        ("integer_part: \"twelve\" quantity: \"million\"".toList)
        ("twelve million".toList) 0 :=
      Accepts.seq' hsign hbody (by simp) (by simp) (by norm_num)
    exact Accepts.seq' hleft htail (by decide) (by decide) (by norm_num)
  · -- optional integer + fractional + quantity
    have hoi : Accepts envNone money_optional_integer
        (("integer_part: \"twelve\" ").toList) (("twelve ").toList) 0 := by
      have ha : Accepts envNone (.seq delete_space insert_space) [' '] [' '] 0 :=
        Accepts.seq' hsp (.cross [] [' ']) (by simp) (by simp) (by norm_num)
      have hb : Accepts envNone (.seq money_integer (.seq delete_space insert_space))
          ("integer_part: \"twelve\" ".toList) ("twelve ".toList) 0 :=
        Accepts.seq' hint ha (by decide) (by decide) (by norm_num)
      exact .altL hb
    have hfp : Accepts envNone (money_fractional true)
        ("fractional_part: \"five\"".toList) ("point five".toList) 0 :=
      Accepts.seq' (.cross [] ("point ".toList)) hfrac (by simp) (by decide) (by norm_num)
    have hq2 : Accepts envNone money_optional_quantity
        ((" quantity: \"million\"").toList) ((" million").toList) 0 := by
      have ha : Accepts envNone (.seq insert_space (fieldPat ("quantity:")))
          ("quantity: \"million\"".toList) (" million".toList) 0 :=
        Accepts.seq' (.cross [] [' ']) hqty (by simp) (by decide) (by norm_num)
      exact .altL (Accepts.seq' hsp ha (by decide) (by simp) (by norm_num))
    have hfq : Accepts envNone (.seq (money_fractional true) money_optional_quantity)
        ("fractional_part: \"five\" quantity: \"million\"".toList)
        ("point five million".toList) 0 :=
      Accepts.seq' hfp hq2 (by decide) (by decide) (by norm_num)
    have hifq : Accepts envNone (.seq money_optional_integer
        (.seq (money_fractional true) money_optional_quantity))
        ("integer_part: \"twelve\" fractional_part: \"five\" quantity: \"million\"".toList)
        ("twelve point five million".toList) 0 :=
      Accepts.seq' hoi hfq (by decide) (by decide) (by norm_num)
    have hbody : Accepts envNone
        (.alt money_integer
          (.alt (.seq money_integer money_quantity)
            (.seq money_optional_integer
              (.seq (money_fractional true) money_optional_quantity))))
        ("integer_part: \"twelve\" fractional_part: \"five\" quantity: \"million\"".toList)
        ("twelve point five million".toList) 0 := .altR (.altR hifq)
    have hleft : Accepts envNone (.seq money_optional_sign
        (.alt money_integer
          (.alt (.seq money_integer money_quantity)
            (.seq money_optional_integer
              (.seq (money_fractional true) money_optional_quantity)))))
        ("integer_part: \"twelve\" fractional_part: \"five\" quantity: \"million\"".toList)
        ("twelve point five million".toList) 0 :=
      Accepts.seq' hsign hbody (by simp) (by simp) (by norm_num)
    exact Accepts.seq' hleft htail (by decide) (by decide) (by norm_num)

/-- `k` repetitions of the group ` zero`. -/
def spaceZeros : Nat → List Char
  | 0 => []
  | k + 1 => (" zero".toList) ++ spaceZeros k

/-- The digit word group `zero( zero)*`: one `zero` followed by `k`
further ` zero` groups. -/
def zeroGroup (k : Nat) : List Char := ("zero".toList) ++ spaceZeros k

/-- The tagged fractional field whose value is the all-zeros group. -/
def fracZeroTag (k : Nat) : List Char :=
  ("fractional_part: \"".toList) ++ (zeroGroup k ++ ("\"".toList))

/-- The closure over ` zero` deletions accepts any number of ` zero`
groups, silently. -/
theorem accepts_star_spaceZeros {env : FstEnv} :
    ∀ k, Accepts env (.star (.cross (" zero".toList) [])) (spaceZeros k) [] 0
  | 0 => .starNil
  | k + 1 =>
    Accepts.starCons' (.cross _ _) (accepts_star_spaceZeros k)
      (by simp [spaceZeros]) (by simp) (by norm_num)

/-- Every character of the ` zero` repetitions is quote-free. -/
theorem spaceZeros_not_quote : ∀ k, ∀ c ∈ spaceZeros k, (!(c == '"')) = true
  | 0 => by intro c hc; simp [spaceZeros] at hc
  | k + 1 => by
    intro c hc
    simp only [spaceZeros] at hc
    rcases List.mem_append.1 hc with h | h
    · have h5 : c ∈ [' ', 'z', 'e', 'r', 'o'] := h
      fin_cases h5 <;> decide
    · exact spaceZeros_not_quote k c h

/-- Every character of the all-zeros group is quote-free. -/
theorem zeroGroup_not_quote (k : Nat) : ∀ c ∈ zeroGroup k, (!(c == '"')) = true := by
  intro c hc
  rcases List.mem_append.1 hc with h | h
  · have h4 : c ∈ ['z', 'e', 'r', 'o'] := h
    fin_cases h4 <;> decide
  · exact spaceZeros_not_quote k c h

/-- C6: in non-deterministic mode, a money fractional part consisting of
the digit word group `zero( zero)*` can verbalize as nothing (the silent
`fractional2` branch), and, via the same weighted union, the literal
`point <digits>` reading of the same fractional part is also accepted —
both at weight 0, for every number of `zero` groups. -/
theorem money_fractional_silent_zeros (env : FstEnv) (k : Nat) :
    Accepts env (money_fractional false) (fracZeroTag k) [] 0 ∧
    Accepts env (money_fractional false) (fracZeroTag k)
      (("point ".toList) ++ zeroGroup k) 0 := by
  constructor
  · -- the silent branch `fractional2`
    have h1 : Accepts env (.del ("fractional_part:"))
        ("fractional_part:".toList) [] 0 := .cross _ _
    have hsp : Accepts env delete_space [' '] [] 0 :=
      accepts_star_delClass_of [' '] (by decide)
    have hsp0 : Accepts env delete_space [] [] 0 := .starNil
    have hq : Accepts env (.del ("\"")) ['"'] [] 0 := .cross _ _
    have hz : Accepts env (.cross ("zero".toList) []) ("zero".toList) [] 0 := .cross _ _
    have hstar : Accepts env (.star (.cross (" zero".toList) [])) (spaceZeros k) [] 0 :=
      accepts_star_spaceZeros k
    have t1 : Accepts env (.seq (.del ("\"")) delete_space) ['"'] [] 0 :=
      Accepts.seq' hq hsp0 (by simp) (by simp) (by norm_num)
    have t2 : Accepts env (.seq delete_space (.seq (.del ("\"")) delete_space))
        ['"'] [] 0 :=
      Accepts.seq' hsp0 t1 (by simp) (by simp) (by norm_num)
    have t3 : Accepts env (.seq (.star (.cross (" zero".toList) []))
        (.seq delete_space (.seq (.del ("\"")) delete_space)))
        (spaceZeros k ++ ['"']) [] 0 :=
      Accepts.seq' hstar t2 (by simp) (by simp) (by norm_num)
    have t4 : Accepts env (.seq (.cross ("zero".toList) [])
        (.seq (.star (.cross (" zero".toList) []))
          (.seq delete_space (.seq (.del ("\"")) delete_space))))
        (zeroGroup k ++ ['"']) [] 0 :=
      Accepts.seq' hz t3 (by simp [zeroGroup]) (by simp) (by norm_num)
    have t5 : Accepts env (.seq (.del ("\""))
        (.seq (.cross ("zero".toList) [])
          (.seq (.star (.cross (" zero".toList) []))
            (.seq delete_space (.seq (.del ("\"")) delete_space)))))
        ('"' :: (zeroGroup k ++ ['"'])) [] 0 :=
      Accepts.seq' hq t4 (by simp) (by simp) (by norm_num)
    have t6 : Accepts env (.seq delete_space (.seq (.del ("\""))
        (.seq (.cross ("zero".toList) [])
          (.seq (.star (.cross (" zero".toList) []))
            (.seq delete_space (.seq (.del ("\"")) delete_space))))))
        (' ' :: '"' :: (zeroGroup k ++ ['"'])) [] 0 :=
      Accepts.seq' hsp t5 (by simp) (by simp) (by norm_num)
    have t7 : Accepts env money_fractional2 (fracZeroTag k) [] 0 :=
      Accepts.seq' h1 t6 (by simp [fracZeroTag]) (by simp) (by norm_num)
    exact .altR (.altL t7)
  · -- the `point <digits>` reading of the same input
    have hfd : Accepts env money_fractional_default (fracZeroTag k) (zeroGroup k) 0 := by
      have hfd0 : Accepts env money_fractional_default
          ("fractional_part:".toList ++ (' ' :: '"' :: (zeroGroup k ++ ['"'])))
          (zeroGroup k) 0 :=
        accepts_fieldPat ("fractional_part:") (zeroGroup k)
          (by simp [zeroGroup]) (zeroGroup_not_quote k)
      have he : ("fractional_part:".toList ++ (' ' :: '"' :: (zeroGroup k ++ ['"'])))
          = fracZeroTag k := by simp [fracZeroTag]
      rw [he] at hfd0
      exact hfd0
    exact .altL (Accepts.seq' (.cross [] ("point ".toList)) hfd
      (by simp) (by simp) (by norm_num))

/-- Inversion for the minor-currency union: it consumes nothing, adds no
weight, and emits either nothing or one lexicon entry followed by a
space. -/
theorem accepts_minorUnion_inv {env : FstEnv} {ms : List String}
    {i o : List Char} {w : ℚ} (h : Accepts env (minorUnion ms) i o w) :
    i = [] ∧ w = 0 ∧ (o = [] ∨ ∃ m ∈ ms, o = m.toList ++ [' ']) := by
  induction ms with
  | nil =>
    obtain ⟨ho, hp, hw⟩ := accepts_idOn_inv h
    simp at hp
  | cons m rest ih =>
    rcases accepts_alt_inv h with h | h
    · rcases accepts_alt_inv h with h | h
      · obtain ⟨hi, ho, hw⟩ := accepts_cross_inv h
        exact ⟨hi, hw, Or.inr ⟨m, by simp, ho⟩⟩
      · obtain ⟨hi, ho, hw⟩ := accepts_cross_inv h
        exact ⟨hi, hw, Or.inl ho⟩
    · obtain ⟨hi, hw, ho⟩ := ih h
      refine ⟨hi, hw, ho.imp id ?_⟩
      rintro ⟨m', hm', e⟩
      exact ⟨m', by simp [hm'], e⟩

/-- C10: every output of the non-deterministic money verbalizer graph
decomposes as integer words, a space, the currency words, a space, an
optional lexicon minor-currency insertion, the fractional rendering, a
space, and an unconditionally inserted final `cents` or `pence` — so
every output ends in ` cents` or ` pence` regardless of the currency
field, and the lexicon minor-currency name, when inserted, sits between
the currency word and the fractional part, not at the tail. -/
theorem moneyNonDet_output_shape (minors : List String) (env : FstEnv)
    (i o : List Char) (w : ℚ)
    (h : Accepts env (moneyGraphNonDet minors) i o w) :
    ∃ oInt iUnit oUnit wUnit om iFrac oFrac wFrac tail,
      o = oInt ++ [' '] ++ oUnit ++ [' '] ++ om ++ oFrac ++ [' '] ++ tail ∧
      (tail = ("cents".toList) ∨ tail = ("pence".toList)) ∧
      (om = [] ∨ ∃ m ∈ minors, om = m.toList ++ [' ']) ∧
      Accepts env money_unit iUnit oUnit wUnit ∧
      Accepts env (money_fractional false) iFrac oFrac wFrac ∧
      ((∃ s, o = s ++ (" cents".toList)) ∨ (∃ s, o = s ++ (" pence".toList))) := by
  unfold moneyGraphNonDet at h
  obtain ⟨iInt, oInt, wInt, i2, o2, w2, hInt, hr1, rfl, rfl, rfl⟩ := accepts_seq_inv h
  obtain ⟨i3, o3, w3, i4, o4, w4, hSp1, hr2, rfl, rfl, rfl⟩ := accepts_seq_inv hr1
  obtain ⟨hSp1o, hSp1w⟩ := accepts_star_delClass hSp1
  obtain ⟨i5, o5, w5, i6, o6, w6, hIns1, hr3, rfl, rfl, rfl⟩ := accepts_seq_inv hr2
  obtain ⟨hIns1i, hIns1o, hIns1w⟩ := accepts_cross_inv hIns1
  obtain ⟨iUnit, oUnit, wUnit, i7, o7, w7, hUnit, hr4, rfl, rfl, rfl⟩ := accepts_seq_inv hr3
  obtain ⟨i8, o8, w8, i9, o9, w9, hSp2, hr5, rfl, rfl, rfl⟩ := accepts_seq_inv hr4
  obtain ⟨hSp2o, hSp2w⟩ := accepts_star_delClass hSp2
  obtain ⟨i10, o10, w10, i11, o11, w11, hIns2, hr6, rfl, rfl, rfl⟩ := accepts_seq_inv hr5
  obtain ⟨hIns2i, hIns2o, hIns2w⟩ := accepts_cross_inv hIns2
  obtain ⟨iMin, oMin, wMin, i12, o12, w12, hMin, hr7, rfl, rfl, rfl⟩ := accepts_seq_inv hr6
  obtain ⟨hMini, hMinw, hMino⟩ := accepts_minorUnion_inv hMin
  obtain ⟨iFrac, oFrac, wFrac, i13, o13, w13, hFrac, hr8, rfl, rfl, rfl⟩ := accepts_seq_inv hr7
  obtain ⟨i14, o14, w14, i15, o15, w15, hIns3, hr9, rfl, rfl, rfl⟩ := accepts_seq_inv hr8
  obtain ⟨hIns3i, hIns3o, hIns3w⟩ := accepts_cross_inv hIns3
  rcases accepts_alt_inv hr9 with hTail | hTail
  · obtain ⟨hTi, hTo, hTw⟩ := accepts_cross_inv hTail
    refine ⟨oInt, iUnit, oUnit, wUnit, oMin, iFrac, oFrac, wFrac, ("cents".toList),
      ?_, Or.inl rfl, hMino, hUnit, hFrac, Or.inl
        ⟨oInt ++ [' '] ++ oUnit ++ [' '] ++ oMin ++ oFrac, ?_⟩⟩
    · subst hSp1o hIns1o hSp2o hIns2o hIns3o hTo
      simp [List.append_assoc]
    · subst hSp1o hIns1o hSp2o hIns2o hIns3o hTo
      simp [List.append_assoc]
  · obtain ⟨hTi, hTo, hTw⟩ := accepts_cross_inv hTail
    refine ⟨oInt, iUnit, oUnit, wUnit, oMin, iFrac, oFrac, wFrac, ("pence".toList),
      ?_, Or.inr rfl, hMino, hUnit, hFrac, Or.inr
        ⟨oInt ++ [' '] ++ oUnit ++ [' '] ++ oMin ++ oFrac, ?_⟩⟩
    · subst hSp1o hIns1o hSp2o hIns2o hIns3o hTo
      simp [List.append_assoc]
    · subst hSp1o hIns1o hSp2o hIns2o hIns3o hTo
      simp [List.append_assoc]

/-- Concrete instance of the non-deterministic money output shape, on the
token `integer_part: "one" currency: "dollar" fractional_part: "five"`
with the minor-currency lexicon `["centavos"]`. -/
theorem moneyNonDet_output_shape_witness :
    ∃ oInt iUnit oUnit wUnit om iFrac oFrac wFrac tail,
      ("one dollar centavos point five cents".toList)
          = oInt ++ [' '] ++ oUnit ++ [' '] ++ om ++ oFrac ++ [' '] ++ tail ∧
      (tail = ("cents".toList) ∨ tail = ("pence".toList)) ∧
      (om = [] ∨ ∃ m ∈ ["centavos"], om = m.toList ++ [' ']) ∧
      Accepts envNone money_unit iUnit oUnit wUnit ∧
      Accepts envNone (money_fractional false) iFrac oFrac wFrac ∧
      ((∃ s, ("one dollar centavos point five cents".toList) = s ++ (" cents".toList)) ∨
        (∃ s, ("one dollar centavos point five cents".toList) = s ++ (" pence".toList))) := by
  have hint : Accepts envNone money_integer
      ("integer_part: \"one\"".toList) ("one".toList) 0 :=
    accepts_fieldPat ("integer_part:") ("one".toList) (by decide) (by decide)
  have hunit : Accepts envNone money_unit
      ("currency: \"dollar\"".toList) ("dollar".toList) 0 :=
    accepts_fieldPat ("currency:") ("dollar".toList) (by decide) (by decide)
  have hfive : Accepts envNone money_fractional_default
      ("fractional_part: \"five\"".toList) ("five".toList) 0 :=
    accepts_fieldPat ("fractional_part:") ("five".toList) (by decide) (by decide)
  have hfrac : Accepts envNone (money_fractional false)
      ("fractional_part: \"five\"".toList) ("point five".toList) 0 :=
    .altL (Accepts.seq' (.cross [] ("point ".toList)) hfive
      (by simp) (by decide) (by norm_num))
  have hsp : Accepts envNone delete_space [' '] [] 0 :=
    accepts_star_delClass_of [' '] (by decide)
  have hmin : Accepts envNone (minorUnion ["centavos"]) [] ("centavos ".toList) 0 :=
    .altL (.altL (.cross [] _))
  have hcents : Accepts envNone (Fst.alt (.ins ("cents")) (.ins ("pence")))
      [] ("cents".toList) 0 := .altL (.cross [] _)
  have t1 : Accepts envNone (.seq insert_space
      (.alt (.ins ("cents")) (.ins ("pence")))) [] (" cents".toList) 0 :=
    Accepts.seq' (.cross [] [' ']) hcents (by simp) (by decide) (by norm_num)
  have t2 : Accepts envNone (.seq (money_fractional false)
      (.seq insert_space (.alt (.ins ("cents")) (.ins ("pence")))))
      ("fractional_part: \"five\"".toList) ("point five cents".toList) 0 :=
    Accepts.seq' hfrac t1 (by decide) (by decide) (by norm_num)
  have t3 : Accepts envNone (.seq (minorUnion ["centavos"])
      (.seq (money_fractional false)
        (.seq insert_space (.alt (.ins ("cents")) (.ins ("pence"))))))
      ("fractional_part: \"five\"".toList) ("centavos point five cents".toList) 0 :=
    Accepts.seq' hmin t2 (by decide) (by decide) (by norm_num)
  have t4 : Accepts envNone (.seq insert_space (.seq (minorUnion ["centavos"])
      (.seq (money_fractional false)
        (.seq insert_space (.alt (.ins ("cents")) (.ins ("pence")))))))
      ("fractional_part: \"five\"".toList) (" centavos point five cents".toList) 0 :=
    Accepts.seq' (.cross [] [' ']) t3 (by simp) (by decide) (by norm_num)
  have t5 : Accepts envNone (.seq delete_space (.seq insert_space
      (.seq (minorUnion ["centavos"])
        (.seq (money_fractional false)
          (.seq insert_space (.alt (.ins ("cents")) (.ins ("pence"))))))))
      (" fractional_part: \"five\"".toList) (" centavos point five cents".toList) 0 :=
    Accepts.seq' hsp t4 (by decide) (by simp) (by norm_num)
  have t6 : Accepts envNone (.seq money_unit (.seq delete_space (.seq insert_space
      (.seq (minorUnion ["centavos"])
        (.seq (money_fractional false)
          (.seq insert_space (.alt (.ins ("cents")) (.ins ("pence")))))))))
      ("currency: \"dollar\" fractional_part: \"five\"".toList)
      ("dollar centavos point five cents".toList) 0 :=
    Accepts.seq' hunit t5 (by decide) (by decide) (by norm_num)
  have t7 : Accepts envNone (.seq insert_space (.seq money_unit
      (.seq delete_space (.seq insert_space
        (.seq (minorUnion ["centavos"])
          (.seq (money_fractional false)
            (.seq insert_space (.alt (.ins ("cents")) (.ins ("pence"))))))))))
      ("currency: \"dollar\" fractional_part: \"five\"".toList)
      (" dollar centavos point five cents".toList) 0 :=
    Accepts.seq' (.cross [] [' ']) t6 (by simp) (by decide) (by norm_num)
  have t8 : Accepts envNone (.seq delete_space (.seq insert_space (.seq money_unit
      (.seq delete_space (.seq insert_space
        (.seq (minorUnion ["centavos"])
          (.seq (money_fractional false)
            (.seq insert_space (.alt (.ins ("cents")) (.ins ("pence")))))))))))
      (" currency: \"dollar\" fractional_part: \"five\"".toList)
      (" dollar centavos point five cents".toList) 0 :=
    Accepts.seq' hsp t7 (by decide) (by simp) (by norm_num)
  have hAcc : Accepts envNone (moneyGraphNonDet ["centavos"])
      ("integer_part: \"one\" currency: \"dollar\" fractional_part: \"five\"".toList)
      ("one dollar centavos point five cents".toList) 0 :=
    Accepts.seq' hint t8 (by decide) (by decide) (by norm_num)
  exact moneyNonDet_output_shape ["centavos"] envNone _ _ _ hAcc

/-! ### Claims about the measure tagger (C3, C4, C7) -/

/-- Introduction rule for `comp` with an explicit weight equation. -/
theorem Accepts.comp' {env : FstEnv} {e₁ e₂ : Fst} {i m o : List Char}
    {w₁ w₂ w : ℚ} (h₁ : Accepts env e₁ i m w₁) (h₂ : Accepts env e₂ m o w₂)
    (hw : w = w₁ + w₂) : Accepts env (.comp e₁ e₂) i o w := by
  subst hw; exact .comp h₁ h₂

/-- A small concrete interpretation of the abstract measure atoms, used by
the concrete instances below: the cardinal grammar reads `2` as `two`, the
decimal grammar reads `5` as `five`, and the measurements lexicon maps
`k` to `karat` / `karats`. -/
def envMeasure : FstEnv := fun n i o w =>
  (n = 0 ∧ i = ("2".toList) ∧ o = ("two".toList) ∧ w = 0) ∨
  (n = 1 ∧ i = ("5".toList) ∧ o = ("five".toList) ∧ w = 0) ∨
  (n = 2 ∧ i = ("k".toList) ∧ o = ("karat".toList) ∧ w = 0) ∨
  (n = 3 ∧ i = ("k".toList) ∧ o = ("karats".toList) ∧ w = 0)

/-- The plural unit field accepts `k` ↦ `units: "karats"` under
`envMeasure`. -/
theorem accepts_unit_plural_k :
    Accepts envMeasure unit_plural ("k".toList) ("units: \"karats\"".toList) 0 := by
  have hatom : Accepts envMeasure graph_unit_plural ("k".toList) ("karats".toList) 0 :=
    .atom (by simp [envMeasure])
  have hopt : Accepts envMeasure optional_graph_unit2 [] [] 0 := .altR (.cross [] [])
  have hmid : Accepts envMeasure (.seq graph_unit_plural optional_graph_unit2)
      ("k".toList) ("karats".toList) 0 :=
    Accepts.seq' hatom hopt (by simp) (by simp) (by norm_num)
  have h2 : Accepts envMeasure
      (.seq (.alt (.seq graph_unit_plural optional_graph_unit2) graph_unit2)
        (.ins ("\"")))
      ("k".toList) ("karats\"".toList) 0 :=
    Accepts.seq' (.altL hmid) (.cross [] _) (by simp) (by decide) (by norm_num)
  exact Accepts.seq' (.cross [] _) h2 (by simp) (by decide) (by norm_num)

/-- The singular unit field accepts `k` ↦ `units: "karat"` under
`envMeasure`. -/
theorem accepts_unit_singular_k :
    Accepts envMeasure unit_singular ("k".toList) ("units: \"karat\"".toList) 0 := by
  have hatom : Accepts envMeasure graph_unit ("k".toList) ("karat".toList) 0 :=
    .atom (by simp [envMeasure])
  have hopt : Accepts envMeasure optional_graph_unit2 [] [] 0 := .altR (.cross [] [])
  have hmid : Accepts envMeasure (.seq graph_unit optional_graph_unit2)
      ("k".toList) ("karat".toList) 0 :=
    Accepts.seq' hatom hopt (by simp) (by simp) (by norm_num)
  have h2 : Accepts envMeasure
      (.seq (.alt (.seq graph_unit optional_graph_unit2) graph_unit2)
        (.ins ("\"")))
      ("k".toList) ("karat\"".toList) 0 :=
    Accepts.seq' (.altL hmid) (.cross [] _) (by simp) (by decide) (by norm_num)
  exact Accepts.seq' (.cross [] _) h2 (by simp) (by decide) (by norm_num)

/-- Canonical cardinal-measure reading of `2k` under `envMeasure`:
`cardinal { integer: "two" } units: "karats"`, at inner weight 0. -/
theorem accepts_cardinal_canonical_2k :
    Accepts envMeasure subgraph_cardinal_canonical ("2k".toList)
      ("cardinal \x7b integer: \"two\" \x7d units: \"karats\"".toList) 0 := by
  have hcard2 : Accepts envMeasure cardinalAtom ("2".toList) ("two".toList) 0 :=
    .atom (by simp [envMeasure])
  have hid : Accepts envMeasure (.idOn (fun s => !(s == ("1".toList))))
      ("2".toList) ("2".toList) 0 := .idOn (by decide)
  have hcomp : Accepts envMeasure
      (.comp (.idOn (fun s => !(s == ("1".toList)))) cardinalAtom)
      ("2".toList) ("two".toList) 0 :=
    Accepts.comp' hid hcard2 (by norm_num)
  have t1 : Accepts envMeasure (.seq (.ins (" \x7d ")) unit_plural)
      ("k".toList) (" \x7d units: \"karats\"".toList) 0 :=
    Accepts.seq' (.cross [] _) accepts_unit_plural_k (by simp) (by decide) (by norm_num)
  have t2 : Accepts envMeasure (.seq (.ins ("\"")) (.seq (.ins (" \x7d ")) unit_plural))
      ("k".toList) ("\" \x7d units: \"karats\"".toList) 0 :=
    Accepts.seq' (.cross [] _) t1 (by simp) (by decide) (by norm_num)
  have t3 : Accepts envMeasure (.seq delete_space
      (.seq (.ins ("\"")) (.seq (.ins (" \x7d ")) unit_plural)))
      ("k".toList) ("\" \x7d units: \"karats\"".toList) 0 :=
    Accepts.seq' (Accepts.starNil) t2 (by simp) (by simp) (by norm_num)
  have t4 : Accepts envMeasure
      (.seq (.comp (.idOn (fun s => !(s == ("1".toList)))) cardinalAtom)
        (.seq delete_space (.seq (.ins ("\"")) (.seq (.ins (" \x7d ")) unit_plural))))
      ("2k".toList) ("two\" \x7d units: \"karats\"".toList) 0 :=
    Accepts.seq' hcomp t3 (by decide) (by decide) (by norm_num)
  have t5 : Accepts envMeasure
      (.seq (.ins ("integer: \""))
        (.seq (.comp (.idOn (fun s => !(s == ("1".toList)))) cardinalAtom)
          (.seq delete_space (.seq (.ins ("\"")) (.seq (.ins (" \x7d ")) unit_plural)))))
      ("2k".toList) ("integer: \"two\" \x7d units: \"karats\"".toList) 0 :=
    Accepts.seq' (.cross [] _) t4 (by simp) (by decide) (by norm_num)
  have t6 : Accepts envMeasure
      (.seq optional_graph_negative
        (.seq (.ins ("integer: \""))
          (.seq (.comp (.idOn (fun s => !(s == ("1".toList)))) cardinalAtom)
            (.seq delete_space (.seq (.ins ("\"")) (.seq (.ins (" \x7d ")) unit_plural))))))
      ("2k".toList) ("integer: \"two\" \x7d units: \"karats\"".toList) 0 :=
    Accepts.seq' (.altR (.cross [] [])) t5 (by simp) (by simp) (by norm_num)
  have t7 : Accepts envMeasure (Fst.ins ("cardinal \x7b "))
      [] ("cardinal \x7b ".toList) 0 := .cross _ _
  exact .altL (Accepts.seq' t7 t6 (by simp) (by decide) (by norm_num))

/-- Serial fallback reading of `2k` under `envMeasure`:
`cardinal { integer: "two k" } units: "serial"`, at inner weight 0. -/
theorem accepts_serial_body_2k :
    Accepts envMeasure subgraph_cardinal_serial_body ("2k".toList)
      ("cardinal \x7b integer: \"two k\" \x7d units: \"serial\"".toList) 0 := by
  have halpha : Accepts envMeasure NEMO_ALPHA ['k'] ['k'] 0 := .keepClass (by decide)
  have hsk : Accepts envMeasure (.seq (.ins (" ")) NEMO_ALPHA) ['k'] (" k".toList) 0 :=
    Accepts.seq' (.cross [] _) halpha (by simp) (by decide) (by norm_num)
  have hcard2 : Accepts envMeasure cardinalAtom ("2".toList) ("two".toList) 0 :=
    .atom (by simp [envMeasure])
  have hend : Accepts envMeasure serial_graph_cardinal_end
      ("2k".toList) ("two k".toList) 0 :=
    Accepts.seq' hcard2 (.altL hsk) (by decide) (by decide) (by norm_num)
  have t1 : Accepts envMeasure
      (.seq delete_space (.ins ("\" \x7d units: \"serial\"")))
      [] ("\" \x7d units: \"serial\"".toList) 0 :=
    Accepts.seq' (Accepts.starNil) (.cross [] _) (by simp) (by simp) (by norm_num)
  have t2 : Accepts envMeasure
      (.seq (.alt serial_graph_cardinal_end serial_graph_cardinal_start)
        (.seq delete_space (.ins ("\" \x7d units: \"serial\""))))
      ("2k".toList) ("two k\" \x7d units: \"serial\"".toList) 0 :=
    Accepts.seq' (.altL hend) t1 (by simp) (by decide) (by norm_num)
  have t3 : Accepts envMeasure
      (.seq (.ins ("integer: \""))
        (.seq (.alt serial_graph_cardinal_end serial_graph_cardinal_start)
          (.seq delete_space (.ins ("\" \x7d units: \"serial\"")))))
      ("2k".toList) ("integer: \"two k\" \x7d units: \"serial\"".toList) 0 :=
    Accepts.seq' (.cross [] _) t2 (by simp) (by decide) (by norm_num)
  have t4 : Accepts envMeasure
      (.seq optional_graph_negative
        (.seq (.ins ("integer: \""))
          (.seq (.alt serial_graph_cardinal_end serial_graph_cardinal_start)
            (.seq delete_space (.ins ("\" \x7d units: \"serial\""))))))
      ("2k".toList) ("integer: \"two k\" \x7d units: \"serial\"".toList) 0 :=
    Accepts.seq' (.altR (.cross [] [])) t3 (by simp) (by simp) (by norm_num)
  exact Accepts.seq' (.cross [] _) t4 (by simp) (by decide) (by norm_num)

/-- Canonical decimal-measure reading of `5k` under `envMeasure`:
`decimal { five } units: "karats"`, at inner weight 0. -/
theorem accepts_decimal_canonical_5k :
    Accepts envMeasure subgraph_decimal_canonical ("5k".toList)
      ("decimal \x7b five \x7d units: \"karats\"".toList) 0 := by
  have hdec : Accepts envMeasure decimalAtom ("5".toList) ("five".toList) 0 :=
    .atom (by simp [envMeasure])
  have u1 : Accepts envMeasure (.seq (.ins (" \x7d ")) unit_plural)
      ("k".toList) (" \x7d units: \"karats\"".toList) 0 :=
    Accepts.seq' (.cross [] _) accepts_unit_plural_k (by simp) (by decide) (by norm_num)
  have u2 : Accepts envMeasure
      (.seq delete_space (.seq (.ins (" \x7d ")) unit_plural))
      ("k".toList) (" \x7d units: \"karats\"".toList) 0 :=
    Accepts.seq' (Accepts.starNil) u1 (by simp) (by simp) (by norm_num)
  have u3 : Accepts envMeasure
      (.seq decimalAtom (.seq delete_space (.seq (.ins (" \x7d ")) unit_plural)))
      ("5k".toList) ("five \x7d units: \"karats\"".toList) 0 :=
    Accepts.seq' hdec u2 (by decide) (by decide) (by norm_num)
  have u4 : Accepts envMeasure
      (.seq optional_graph_negative
        (.seq decimalAtom (.seq delete_space (.seq (.ins (" \x7d ")) unit_plural))))
      ("5k".toList) ("five \x7d units: \"karats\"".toList) 0 :=
    Accepts.seq' (.altR (.cross [] [])) u3 (by simp) (by simp) (by norm_num)
  have u5 : Accepts envMeasure (Fst.ins ("decimal \x7b "))
      [] ("decimal \x7b ".toList) 0 := .cross _ _
  exact Accepts.seq' u5 u4 (by simp) (by decide) (by norm_num)

/-- The serial decimal reading of `5k` under `envMeasure`, before the
`2.1` branch weight: `decimal { five k } units: ""` at inner weight 0. -/
theorem accepts_decimal_serial_body_5k :
    Accepts envMeasure subgraph_decimal_serial_body ("5k".toList)
      ("decimal \x7b five k \x7d units: \"\"".toList) 0 := by
  have hdec : Accepts envMeasure decimalAtom ("5".toList) ("five".toList) 0 :=
    .atom (by simp [envMeasure])
  have halpha : Accepts envMeasure NEMO_ALPHA ['k'] ['k'] 0 := .keepClass (by decide)
  have hsk : Accepts envMeasure (.seq (.ins (" ")) NEMO_ALPHA) ['k'] (" k".toList) 0 :=
    Accepts.seq' (.cross [] _) halpha (by simp) (by decide) (by norm_num)
  have hu : Accepts envMeasure serial_graph_decimal_unit
      ("5k".toList) ("five k".toList) 0 :=
    Accepts.seq' hdec (.altL hsk) (by decide) (by decide) (by norm_num)
  have hrep : Accepts envMeasure
      (.star (.seq (.ins (" ")) serial_graph_decimal_unit)) [] [] 0 := .starNil
  have hsgd1 : Accepts envMeasure
      (.seq serial_graph_decimal_unit
        (.star (.seq (.ins (" ")) serial_graph_decimal_unit)))
      ("5k".toList) ("five k".toList) 0 :=
    Accepts.seq' hu hrep (by simp) (by simp) (by norm_num)
  have hsgd : Accepts envMeasure serial_graph_decimal
      ("5k".toList) ("five k".toList) 0 :=
    Accepts.seq' (Accepts.starNil) hsgd1 (by simp) (by simp) (by norm_num)
  have t1 : Accepts envMeasure
      (.seq serial_graph_decimal (.ins (" \x7d units: \"\"")))
      ("5k".toList) ("five k \x7d units: \"\"".toList) 0 :=
    Accepts.seq' hsgd (.cross [] _) (by simp) (by decide) (by norm_num)
  have t2 : Accepts envMeasure
      (.seq optional_graph_negative
        (.seq serial_graph_decimal (.ins (" \x7d units: \"\""))))
      ("5k".toList) ("five k \x7d units: \"\"".toList) 0 :=
    Accepts.seq' (.altR (.cross [] [])) t1 (by simp) (by simp) (by norm_num)
  have t3 : Accepts envMeasure (Fst.ins ("decimal \x7b "))
      [] ("decimal \x7b ".toList) 0 := .cross _ _
  exact Accepts.seq' t3 t2 (by simp) (by decide) (by norm_num)

/-- C3: for any input accepted both by a canonical measure reading (the
cardinal or the decimal variant) and by a serial fallback reading (the
cardinal or the decimal variant) at the same sub-grammar weight (the tied
case: the branch-internal cardinal/decimal and lexicon paths contribute
equally), the full measure classify grammar accepts the canonical reading
at total weight `w + 1.09` and the serial reading at total weight
`w + 2.1`; the serial cumulative weight is strictly higher, so
lowest-weight n-best extraction ranks the canonical measure reading
first. -/
theorem measure_serial_weight_ranking (env : FstEnv) (i o₁ o₂ : List Char) (w : ℚ)
    (hc : Accepts env subgraph_cardinal_canonical i o₁ w ∨
      Accepts env subgraph_decimal_canonical i o₁ w)
    (hs : Accepts env subgraph_cardinal_serial_body i o₂ w ∨
      Accepts env subgraph_decimal_serial_body i o₂ w) :
    Accepts env measure_final_graph i o₁ ((109 / 100 : ℚ) + w) ∧
    Accepts env measure_final_graph i o₂ ((21 / 10 : ℚ) + w) ∧
    (109 / 100 : ℚ) + w < (21 / 10 : ℚ) + w := by
  refine ⟨?_, ?_, by linarith⟩
  · rcases hc with hc | hc
    · exact .altR (.altL (.wt hc))
    · exact .altL (.altL (.wt hc))
  · rcases hs with hs | hs
    · exact .altR (.altR (.wt hs))
    · exact .altL (.altR (.wt hs))

/-- Concrete instances of the weight ranking: the cardinal pair at input
`2k` and the decimal pair at input `5k`, canonical at `1.09`, serial at
`2.1`. -/
theorem measure_serial_weight_ranking_witness :
    (Accepts envMeasure measure_final_graph ("2k".toList)
      ("cardinal \x7b integer: \"two\" \x7d units: \"karats\"".toList)
      ((109 / 100 : ℚ) + 0) ∧
    Accepts envMeasure measure_final_graph ("2k".toList)
      ("cardinal \x7b integer: \"two k\" \x7d units: \"serial\"".toList)
      ((21 / 10 : ℚ) + 0) ∧
    (109 / 100 : ℚ) + 0 < (21 / 10 : ℚ) + 0) ∧
    (Accepts envMeasure measure_final_graph ("5k".toList)
      ("decimal \x7b five \x7d units: \"karats\"".toList)
      ((109 / 100 : ℚ) + 0) ∧
    Accepts envMeasure measure_final_graph ("5k".toList)
      ("decimal \x7b five k \x7d units: \"\"".toList)
      ((21 / 10 : ℚ) + 0) ∧
    (109 / 100 : ℚ) + 0 < (21 / 10 : ℚ) + 0) :=
  ⟨measure_serial_weight_ranking envMeasure _ _ _ 0
      (Or.inl accepts_cardinal_canonical_2k) (Or.inl accepts_serial_body_2k),
    measure_serial_weight_ranking envMeasure _ _ _ 0
      (Or.inr accepts_decimal_canonical_5k) (Or.inr accepts_decimal_serial_body_5k)⟩

/-- C4: every acceptance of the canonical `subgraph_cardinal` decomposes
into an optional negative sign, an integer part and a unit part, and
either the integer surface form is *not* the literal `1` — read through
the cardinal grammar with the *plural* unit field — or it is exactly the
literal `1`, verbalized as the word `one`, with the *singular* unit
field. -/
theorem measure_singular_plural_selection (env : FstEnv) (i o : List Char) (w : ℚ)
    (h : Accepts env subgraph_cardinal_canonical i o w) :
    ∃ iNeg oNeg iInt oInt iSp iU oU,
      i = iNeg ++ (iInt ++ (iSp ++ iU)) ∧
      o = ("cardinal \x7b ".toList) ++ (oNeg ++ (("integer: \"".toList)
        ++ (oInt ++ (("\"".toList) ++ ((" \x7d ".toList) ++ oU))))) ∧
      (∃ wN, Accepts env optional_graph_negative iNeg oNeg wN) ∧
      ((iInt ≠ ("1".toList) ∧ (∃ wI, env 0 iInt oInt wI) ∧
          (∃ wU, Accepts env unit_plural iU oU wU)) ∨
        (iInt = ("1".toList) ∧ oInt = ("one".toList) ∧
          (∃ wU, Accepts env unit_singular iU oU wU))) := by
  rcases accepts_alt_inv h with h | h
  · -- plural branch: `(NEMO_SIGMA - "1") @ cardinal_graph`
    obtain ⟨iH, oH, wH, i2, o2, w2, hH, hr1, rfl, rfl, rfl⟩ := accepts_seq_inv h
    obtain ⟨rfl, rfl, rfl⟩ := accepts_cross_inv hH
    obtain ⟨iN, oN, wN, i3, o3, w3, hN, hr2, rfl, rfl, rfl⟩ := accepts_seq_inv hr1
    obtain ⟨iI, oI, wI, i4, o4, w4, hI, hr3, rfl, rfl, rfl⟩ := accepts_seq_inv hr2
    obtain ⟨rfl, rfl, rfl⟩ := accepts_cross_inv hI
    obtain ⟨iC, oC, wC, i5, o5, w5, hC, hr4, rfl, rfl, rfl⟩ := accepts_seq_inv hr3
    obtain ⟨mid, wca, wcb, hIdOn, hAtom, rfl⟩ := accepts_comp_inv hC
    obtain ⟨rfl, hp, rfl⟩ := accepts_idOn_inv hIdOn
    have hAtom' := accepts_atom_inv hAtom
    obtain ⟨iSp, oSp, wSp, i6, o6, w6, hSp, hr5, rfl, rfl, rfl⟩ := accepts_seq_inv hr4
    obtain ⟨rfl, _⟩ := accepts_star_delClass hSp
    obtain ⟨iQ, oQ, wQ, i7, o7, w7, hQ, hr6, rfl, rfl, rfl⟩ := accepts_seq_inv hr5
    obtain ⟨rfl, rfl, rfl⟩ := accepts_cross_inv hQ
    obtain ⟨iB, oB, wB, iU, oU, wU, hB, hU, rfl, rfl, rfl⟩ := accepts_seq_inv hr6
    obtain ⟨rfl, rfl, rfl⟩ := accepts_cross_inv hB
    refine ⟨iN, oN, mid, oC, iSp, iU, oU, by simp, by simp, ⟨wN, hN⟩,
      Or.inl ⟨?_, ⟨wcb, hAtom'⟩, ⟨wU, hU⟩⟩⟩
    intro hcontra
    rw [hcontra] at hp
    simp at hp
  · -- singular branch: `pynini.cross("1", "one")`
    obtain ⟨iH, oH, wH, i2, o2, w2, hH, hr1, rfl, rfl, rfl⟩ := accepts_seq_inv h
    obtain ⟨rfl, rfl, rfl⟩ := accepts_cross_inv hH
    obtain ⟨iN, oN, wN, i3, o3, w3, hN, hr2, rfl, rfl, rfl⟩ := accepts_seq_inv hr1
    obtain ⟨iI, oI, wI, i4, o4, w4, hI, hr3, rfl, rfl, rfl⟩ := accepts_seq_inv hr2
    obtain ⟨rfl, rfl, rfl⟩ := accepts_cross_inv hI
    obtain ⟨iC, oC, wC, i5, o5, w5, hC, hr4, rfl, rfl, rfl⟩ := accepts_seq_inv hr3
    obtain ⟨rfl, rfl, rfl⟩ := accepts_cross_inv hC
    obtain ⟨iSp, oSp, wSp, i6, o6, w6, hSp, hr5, rfl, rfl, rfl⟩ := accepts_seq_inv hr4
    obtain ⟨rfl, _⟩ := accepts_star_delClass hSp
    obtain ⟨iQ, oQ, wQ, i7, o7, w7, hQ, hr6, rfl, rfl, rfl⟩ := accepts_seq_inv hr5
    obtain ⟨rfl, rfl, rfl⟩ := accepts_cross_inv hQ
    obtain ⟨iB, oB, wB, iU, oU, wU, hB, hU, rfl, rfl, rfl⟩ := accepts_seq_inv hr6
    obtain ⟨rfl, rfl, rfl⟩ := accepts_cross_inv hB
    exact ⟨iN, oN, ("1".toList), ("one".toList), iSp, iU, oU, by simp, by simp,
      ⟨wN, hN⟩, Or.inr ⟨rfl, rfl, ⟨wU, hU⟩⟩⟩

/-- The singular reading of `1k` under `envMeasure`:
`cardinal { integer: "one" } units: "karat"`. -/
theorem accepts_cardinal_singular_1k :
    Accepts envMeasure subgraph_cardinal_canonical ("1k".toList)
      ("cardinal \x7b integer: \"one\" \x7d units: \"karat\"".toList) 0 := by
  have t1 : Accepts envMeasure (.seq (.ins (" \x7d ")) unit_singular)
      ("k".toList) (" \x7d units: \"karat\"".toList) 0 :=
    Accepts.seq' (.cross [] _) accepts_unit_singular_k (by simp) (by decide) (by norm_num)
  have t2 : Accepts envMeasure (.seq (.ins ("\"")) (.seq (.ins (" \x7d ")) unit_singular))
      ("k".toList) ("\" \x7d units: \"karat\"".toList) 0 :=
    Accepts.seq' (.cross [] _) t1 (by simp) (by decide) (by norm_num)
  have t3 : Accepts envMeasure (.seq delete_space
      (.seq (.ins ("\"")) (.seq (.ins (" \x7d ")) unit_singular)))
      ("k".toList) ("\" \x7d units: \"karat\"".toList) 0 :=
    Accepts.seq' (Accepts.starNil) t2 (by simp) (by simp) (by norm_num)
  have hone : Accepts envMeasure (.cross ("1".toList) ("one".toList))
      ("1".toList) ("one".toList) 0 := .cross _ _
  have t4 : Accepts envMeasure
      (.seq (.cross ("1".toList) ("one".toList))
        (.seq delete_space (.seq (.ins ("\"")) (.seq (.ins (" \x7d ")) unit_singular))))
      ("1k".toList) ("one\" \x7d units: \"karat\"".toList) 0 :=
    Accepts.seq' hone t3 (by decide) (by decide) (by norm_num)
  have t5 : Accepts envMeasure
      (.seq (.ins ("integer: \""))
        (.seq (.cross ("1".toList) ("one".toList))
          (.seq delete_space (.seq (.ins ("\"")) (.seq (.ins (" \x7d ")) unit_singular)))))
      ("1k".toList) ("integer: \"one\" \x7d units: \"karat\"".toList) 0 :=
    Accepts.seq' (.cross [] _) t4 (by simp) (by decide) (by norm_num)
  have t6 : Accepts envMeasure
      (.seq optional_graph_negative
        (.seq (.ins ("integer: \""))
          (.seq (.cross ("1".toList) ("one".toList))
            (.seq delete_space (.seq (.ins ("\"")) (.seq (.ins (" \x7d ")) unit_singular))))))
      ("1k".toList) ("integer: \"one\" \x7d units: \"karat\"".toList) 0 :=
    Accepts.seq' (.altR (.cross [] [])) t5 (by simp) (by simp) (by norm_num)
  have t7 : Accepts envMeasure (Fst.ins ("cardinal \x7b "))
      [] ("cardinal \x7b ".toList) 0 := .cross _ _
  exact .altR (Accepts.seq' t7 t6 (by simp) (by decide) (by norm_num))

/-- Concrete instance of the singular/plural decomposition at input `1k`. -/
theorem measure_singular_plural_selection_witness :
    ∃ iNeg oNeg iInt oInt iSp iU oU,
      ("1k".toList) = iNeg ++ (iInt ++ (iSp ++ iU)) ∧
      ("cardinal \x7b integer: \"one\" \x7d units: \"karat\"".toList)
          = ("cardinal \x7b ".toList) ++ (oNeg ++ (("integer: \"".toList)
            ++ (oInt ++ (("\"".toList) ++ ((" \x7d ".toList) ++ oU))))) ∧
      (∃ wN, Accepts envMeasure optional_graph_negative iNeg oNeg wN) ∧
      ((iInt ≠ ("1".toList) ∧ (∃ wI, envMeasure 0 iInt oInt wI) ∧
          (∃ wU, Accepts envMeasure unit_plural iU oU wU)) ∨
        (iInt = ("1".toList) ∧ oInt = ("one".toList) ∧
          (∃ wU, Accepts envMeasure unit_singular iU oU wU))) :=
  measure_singular_plural_selection envMeasure _ _ 0 accepts_cardinal_singular_1k

/-- Whether `pat` occurs as a contiguous substring of the second list. -/
def hasInfix (pat : List Char) : List Char → Bool
  | [] => pat.isPrefixOf []
  | c :: rest => pat.isPrefixOf (c :: rest) || hasInfix pat rest

/-- The serial decimal reading of `5k` under `envMeasure`:
`decimal { five k } units: ""` at weight `2.1` — its units tag is the
*empty* string, not `serial`. -/
theorem accepts_decimal_serial_5k :
    Accepts envMeasure subgraph_decimal_serial ("5k".toList)
      ("decimal \x7b five k \x7d units: \"\"".toList) (21 / 10) :=
  Accepts.wt' accepts_decimal_serial_body_5k (by norm_num)

/-- C7 counterexample: the decimal variant of the serial fallback branch
accepts `5k` but tags it `units: ""` — the string `units: "serial"` does
not occur anywhere in its output, refuting the claim that every serial
fallback acceptance (cardinal *or decimal* variant) is tagged
`units: "serial"`. -/
theorem measure_decimal_serial_not_serial_tagged :
    Accepts envMeasure subgraph_decimal_serial ("5k".toList)
      ("decimal \x7b five k \x7d units: \"\"".toList) (21 / 10) ∧
    hasInfix ("units: \"serial\"".toList)
      ("decimal \x7b five k \x7d units: \"\"".toList) = false :=
  ⟨accepts_decimal_serial_5k, by decide⟩

/-- C7 amended: in the serial fallback of the measure classify grammar,
every *cardinal*-variant acceptance ends its tag with `units: "serial"`,
while every *decimal*-variant acceptance ends its tag with the empty
`units: ""`. -/
theorem measure_serial_units_tags :
    (∀ (env : FstEnv) (i o : List Char) (w : ℚ),
      Accepts env subgraph_cardinal_serial i o w →
        ∃ s, o = s ++ ("\" \x7d units: \"serial\"".toList)) ∧
    (∀ (env : FstEnv) (i o : List Char) (w : ℚ),
      Accepts env subgraph_decimal_serial i o w →
        ∃ s, o = s ++ (" \x7d units: \"\"".toList)) := by
  constructor
  · intro env i o w h
    obtain ⟨w0, hb, rfl⟩ := accepts_wt_inv h
    obtain ⟨iH, oH, wH, i2, o2, w2, hH, hr1, rfl, rfl, rfl⟩ := accepts_seq_inv hb
    obtain ⟨rfl, rfl, rfl⟩ := accepts_cross_inv hH
    obtain ⟨iN, oN, wN, i3, o3, w3, hN, hr2, rfl, rfl, rfl⟩ := accepts_seq_inv hr1
    obtain ⟨iI, oI, wI, i4, o4, w4, hI, hr3, rfl, rfl, rfl⟩ := accepts_seq_inv hr2
    obtain ⟨rfl, rfl, rfl⟩ := accepts_cross_inv hI
    obtain ⟨iS, oS, wS, i5, o5, w5, hS, hr4, rfl, rfl, rfl⟩ := accepts_seq_inv hr3
    obtain ⟨iSp, oSp, wSp, i6, o6, w6, hSp, hT, rfl, rfl, rfl⟩ := accepts_seq_inv hr4
    obtain ⟨rfl, _⟩ := accepts_star_delClass hSp
    obtain ⟨rfl, rfl, rfl⟩ := accepts_cross_inv hT
    exact ⟨("cardinal \x7b ".toList) ++ (oN ++ (("integer: \"".toList) ++ oS)),
      by simp⟩
  · intro env i o w h
    obtain ⟨w0, hb, rfl⟩ := accepts_wt_inv h
    obtain ⟨iH, oH, wH, i2, o2, w2, hH, hr1, rfl, rfl, rfl⟩ := accepts_seq_inv hb
    obtain ⟨rfl, rfl, rfl⟩ := accepts_cross_inv hH
    obtain ⟨iN, oN, wN, i3, o3, w3, hN, hr2, rfl, rfl, rfl⟩ := accepts_seq_inv hr1
    obtain ⟨iS, oS, wS, i4, o4, w4, hS, hT, rfl, rfl, rfl⟩ := accepts_seq_inv hr2
    obtain ⟨rfl, rfl, rfl⟩ := accepts_cross_inv hT
    exact ⟨("decimal \x7b ".toList) ++ (oN ++ oS), by simp⟩

/-- Concrete instances of the two serial tag shapes, at `2k` (cardinal
variant) and `5k` (decimal variant). -/
theorem measure_serial_units_tags_witness :
    (∃ s, ("cardinal \x7b integer: \"two k\" \x7d units: \"serial\"".toList)
        = s ++ ("\" \x7d units: \"serial\"".toList)) ∧
    (∃ s, ("decimal \x7b five k \x7d units: \"\"".toList)
        = s ++ (" \x7d units: \"\"".toList)) :=
  ⟨measure_serial_units_tags.1 envMeasure _ _ _ (.wt accepts_serial_body_2k),
   measure_serial_units_tags.2 envMeasure _ _ _ accepts_decimal_serial_5k⟩
